import Mathlib

/-!
Verification of the fairness-metric and reweighing components described by the
specification of the AIF360 credit-scoring tutorial repository.

The repository's own source consists of a notebook that calls
`BinaryLabelDatasetMetric.mean_difference` and `Reweighing.fit_transform`; the
bodies of those two operations are library code that is not part of the files
available here, so the components are modelled from the specification.  All
arithmetic is carried out over exact rationals (`ℚ`): the floating-point
tolerance the specification allows is replaced by exact equality, which is
strictly stronger.
-/

/-- Modelled from the spec: an Instance (spec §3) is a row with a designated
binary protected-attribute value (`true` = privileged), a binary label
(`true` = favorable), a weight defaulting to 1, and feature values.  The
feature mapping is kept as a list of numeric values; its content is irrelevant
to both components and is carried only so that preservation can be stated. -/
structure Instance where
  protectedAttr : Bool
  label : Bool
  weight : ℚ
  features : List ℚ
deriving DecidableEq

/-- Modelled from the spec: a Dataset (spec §3) is an ordered sequence of
instances. -/
def Dataset : Type := List Instance

/-- Total weighted count `N` of a dataset partition. -/
def totalW : List Instance → ℚ
  | [] => 0
  | i :: t => i.weight + totalW t

/-- Weighted count `N(protected)` of the instances whose protected-attribute
value is `p`. -/
def groupW (p : Bool) : List Instance → ℚ
  | [] => 0
  | i :: t => (if i.protectedAttr = p then i.weight else 0) + groupW p t

/-- Weighted count `N(label)` of the instances whose label is `l`. -/
def labelW (l : Bool) : List Instance → ℚ
  | [] => 0
  | i :: t => (if i.label = l then i.weight else 0) + labelW l t

/-- Weighted count `N(protected, label)` of one of the four cells (spec §3). -/
def cellW (p l : Bool) : List Instance → ℚ
  | [] => 0
  | i :: t => (if i.protectedAttr = p ∧ i.label = l then i.weight else 0) + cellW p l t

/-- Whether the group with protected-attribute value `p` is non-empty. -/
def hasGroup (p : Bool) (d : List Instance) : Bool :=
  d.any (fun i => i.protectedAttr == p)

/-- Whether the cell `(p, l)` is non-empty. -/
def hasCell (p l : Bool) (d : List Instance) : Bool :=
  d.any (fun i => i.protectedAttr == p && i.label == l)

/-- Modelled from the spec: the error kinds of §7. -/
inductive FairnessError where
  | SchemaMismatchError
  | DegenerateGroupError
  | InvalidWeightError
deriving DecidableEq

/-- Weighted probability of a favorable label inside the group with
protected-attribute value `p`: weighted count of favorable instances of the
group divided by the weighted count of all instances of the group. -/
def favProb (p : Bool) (d : List Instance) : ℚ :=
  cellW p true d / groupW p d

/-- Modelled from the spec: `FairnessMetric.mean_difference` (spec §4.1) with a
configurable privileged-group designation `priv`; the complementary value
designates the unprivileged group.  Returns
`P(favorable | unprivileged, weighted) − P(favorable | privileged, weighted)`
and signals `DegenerateGroupError` when either group is empty. -/
def mean_difference_with (priv : Bool) (d : List Instance) : Except FairnessError ℚ :=
  if hasGroup (!priv) d = true ∧ hasGroup priv d = true then
    Except.ok (favProb (!priv) d - favProb priv d)
  else
    Except.error FairnessError.DegenerateGroupError

/-- Modelled from the spec: `mean_difference` with the notebook's designation,
privileged = `true` (age ≥ 25 ↦ 1). -/
def mean_difference (d : List Instance) : Except FairnessError ℚ :=
  mean_difference_with true d

/-- Modelled from the spec: the four-cell reweighing factor of §4.2,
`w(protected, label) = (N(protected)/N) * (N(label)/N) / (N(protected,label)/N)`,
written exactly as the specification's formula. -/
def cellFactor (d : List Instance) (p l : Bool) : ℚ :=
  (groupW p d / totalW d) * (labelW l d / totalW d) / (cellW p l d / totalW d)

/-- Modelled from the spec: the reweighed view of a dataset.  Each instance's
weight is scaled by the cell factor `w(protected, label)` of its cell; labels
and features are untouched.  Scaling the prior weight (rather than overwriting
it with the factor) is the reading under which the specification's own stated
properties hold for weighted inputs — idempotence under refitting (spec §8)
and independence of the weighted joint distribution (spec §4.2); for a dataset
whose weights are all 1 the two readings coincide. -/
def reweighedList (d : List Instance) : List Instance :=
  d.map (fun i => { i with weight := i.weight * cellFactor d i.protectedAttr i.label })

/-- Modelled from the spec: `Reweighing.fit_transform` (spec §4.2).  Fails with
`DegenerateGroupError` when any of the four cells has zero weighted count (the
division by zero of the spec's formula); otherwise returns the reweighed view
as a new dataset. -/
def reweigh (d : List Instance) : Except FairnessError (List Instance) :=
  if cellW true true d = 0 ∨ cellW true false d = 0 ∨
     cellW false true d = 0 ∨ cellW false false d = 0 then
    Except.error FairnessError.DegenerateGroupError
  else
    Except.ok (reweighedList d)

/-- A fresh row with unit weight and no features, used for concrete datasets. -/
def mkRow (p l : Bool) : Instance := ⟨p, l, 1, []⟩

/-- The concrete scenario of spec §8: 20 instances, 10 privileged of which 6
favorable, 10 unprivileged of which 3 favorable, all with the default unit
weight. -/
def tutorialTrain : List Instance :=
  List.replicate 6 (mkRow true true) ++ List.replicate 4 (mkRow true false) ++
  List.replicate 3 (mkRow false true) ++ List.replicate 7 (mkRow false false)

/-! ### Basic algebra of the weighted counts -/

theorem cellW_nonneg {d : List Instance} (h : ∀ i ∈ d, 0 ≤ i.weight) (p l : Bool) :
    0 ≤ cellW p l d := by
  induction d with
  | nil => simp [cellW]
  | cons i t ih =>
    have hi := h i (List.mem_cons_self i t)
    have ht : ∀ j ∈ t, 0 ≤ j.weight := fun j hj => h j (List.mem_cons_of_mem i hj)
    simp only [cellW]
    split
    · exact add_nonneg hi (ih ht)
    · simpa using ih ht

theorem groupW_eq_cell (p : Bool) (d : List Instance) :
    groupW p d = cellW p true d + cellW p false d := by
  induction d with
  | nil => simp [groupW, cellW]
  | cons i t ih =>
    by_cases hp : i.protectedAttr = p <;> cases hl : i.label <;>
      simp [groupW, cellW, hp, hl, ih] <;> ring

theorem labelW_eq_cell (l : Bool) (d : List Instance) :
    labelW l d = cellW true l d + cellW false l d := by
  induction d with
  | nil => simp [labelW, cellW]
  | cons i t ih =>
    by_cases hl : i.label = l <;> cases hp : i.protectedAttr <;>
      simp [labelW, cellW, hp, hl, ih] <;> ring

theorem totalW_eq_group (d : List Instance) :
    totalW d = groupW true d + groupW false d := by
  induction d with
  | nil => simp [totalW, groupW]
  | cons i t ih =>
    cases hp : i.protectedAttr <;> simp [totalW, groupW, hp, ih] <;> ring

theorem totalW_eq_label (d : List Instance) :
    totalW d = labelW true d + labelW false d := by
  induction d with
  | nil => simp [totalW, labelW]
  | cons i t ih =>
    cases hl : i.label <;> simp [totalW, labelW, hl, ih] <;> ring

theorem cellW_pos {d : List Instance} (h : ∀ i ∈ d, 0 < i.weight) {p l : Bool}
    (hc : hasCell p l d = true) : 0 < cellW p l d := by
  induction d with
  | nil => simp [hasCell] at hc
  | cons i t ih =>
    have hi := h i (List.mem_cons_self i t)
    have ht : ∀ j ∈ t, 0 < j.weight := fun j hj => h j (List.mem_cons_of_mem i hj)
    have htn : ∀ j ∈ t, 0 ≤ j.weight := fun j hj => le_of_lt (ht j hj)
    by_cases hm : i.protectedAttr = p ∧ i.label = l
    · simp only [cellW, if_pos hm]
      exact add_pos_of_pos_of_nonneg hi (cellW_nonneg htn p l)
    · have hc' : hasCell p l t = true := by
        simp only [hasCell, List.any_cons, Bool.or_eq_true, Bool.and_eq_true,
          beq_iff_eq] at hc
        rcases hc with ⟨h1, h2⟩ | hc
        · exact absurd ⟨h1, h2⟩ hm
        · simpa [hasCell] using hc
      simp only [cellW, if_neg hm, zero_add]
      exact ih ht hc'

theorem hasGroup_of_cellW_ne {d : List Instance} {p l : Bool}
    (h : cellW p l d ≠ 0) : hasGroup p d = true := by
  induction d with
  | nil => exact absurd rfl h
  | cons i t ih =>
    by_cases hp : i.protectedAttr = p
    · simp [hasGroup, List.any_cons, hp]
    · have h' : cellW p l t ≠ 0 := by
        simpa [cellW, hp] using h
      have ht := ih h'
      simp only [hasGroup, List.any_cons, Bool.or_eq_true]
      right
      simpa [hasGroup] using ht

/-! ### The reweighed view's counts -/

theorem cellW_scale (g : Bool → Bool → ℚ) (p l : Bool) (d : List Instance) :
    cellW p l (d.map (fun i => { i with weight := i.weight * g i.protectedAttr i.label })) =
      cellW p l d * g p l := by
  induction d with
  | nil => simp [cellW]
  | cons i t ih =>
    by_cases hm : i.protectedAttr = p ∧ i.label = l
    · obtain ⟨h1, h2⟩ := hm
      simp [cellW, h1, h2, ih, add_mul]
    · simp [cellW, hm, ih, add_mul]

theorem hasGroup_scale (g : Instance → ℚ) (p : Bool) (d : List Instance) :
    hasGroup p (d.map (fun i => { i with weight := g i })) = hasGroup p d := by
  induction d with
  | nil => rfl
  | cons i t ih =>
    simp [hasGroup, List.any_cons] at ih ⊢
    rw [ih]

/-- All four `(protected, label)` cells carry positive weighted count. -/
def allCellsPos (d : List Instance) : Prop :=
  0 < cellW true true d ∧ 0 < cellW true false d ∧
  0 < cellW false true d ∧ 0 < cellW false false d

theorem cellW_pos_of_all {d : List Instance} (h : allCellsPos d) (p l : Bool) :
    0 < cellW p l d := by
  obtain ⟨h1, h2, h3, h4⟩ := h
  cases p <;> cases l <;> assumption

theorem groupW_pos_of_all {d : List Instance} (h : allCellsPos d) (p : Bool) :
    0 < groupW p d := by
  rw [groupW_eq_cell]
  exact add_pos (cellW_pos_of_all h p true) (cellW_pos_of_all h p false)

theorem labelW_pos_of_all {d : List Instance} (h : allCellsPos d) (l : Bool) :
    0 < labelW l d := by
  rw [labelW_eq_cell]
  exact add_pos (cellW_pos_of_all h true l) (cellW_pos_of_all h false l)

theorem totalW_pos_of_all {d : List Instance} (h : allCellsPos d) : 0 < totalW d := by
  rw [totalW_eq_group]
  exact add_pos (groupW_pos_of_all h true) (groupW_pos_of_all h false)

theorem allCellsPos_of_ne {d : List Instance} (hw : ∀ i ∈ d, 0 ≤ i.weight)
    (h1 : cellW true true d ≠ 0) (h2 : cellW true false d ≠ 0)
    (h3 : cellW false true d ≠ 0) (h4 : cellW false false d ≠ 0) : allCellsPos d :=
  ⟨(cellW_nonneg hw true true).lt_of_ne (Ne.symm h1),
   (cellW_nonneg hw true false).lt_of_ne (Ne.symm h2),
   (cellW_nonneg hw false true).lt_of_ne (Ne.symm h3),
   (cellW_nonneg hw false false).lt_of_ne (Ne.symm h4)⟩

theorem allCellsPos_of_hasCell {d : List Instance} (hw : ∀ i ∈ d, 0 < i.weight)
    (h1 : hasCell true true d = true) (h2 : hasCell true false d = true)
    (h3 : hasCell false true d = true) (h4 : hasCell false false d = true) :
    allCellsPos d :=
  ⟨cellW_pos hw h1, cellW_pos hw h2, cellW_pos hw h3, cellW_pos hw h4⟩

theorem cellFactor_pos {d : List Instance} (h : allCellsPos d) (p l : Bool) :
    0 < cellFactor d p l := by
  have hG := groupW_pos_of_all h p
  have hL := labelW_pos_of_all h l
  have hN := totalW_pos_of_all h
  have hW := cellW_pos_of_all h p l
  exact div_pos (mul_pos (div_pos hG hN) (div_pos hL hN)) (div_pos hW hN)

theorem reweigh_ok {d d' : List Instance} (h : reweigh d = Except.ok d') :
    d' = reweighedList d ∧ cellW true true d ≠ 0 ∧ cellW true false d ≠ 0 ∧
      cellW false true d ≠ 0 ∧ cellW false false d ≠ 0 := by
  rw [reweigh] at h
  split at h
  · exact absurd h (by simp)
  · rename_i hc
    push_neg at hc
    simp only [Except.ok.injEq] at h
    exact ⟨h.symm, hc.1, hc.2.1, hc.2.2.1, hc.2.2.2⟩

theorem cellW_reweighed {d : List Instance} (h : allCellsPos d) (p l : Bool) :
    cellW p l (reweighedList d) = groupW p d * labelW l d / totalW d := by
  have hW := (cellW_pos_of_all h p l).ne'
  have hN := (totalW_pos_of_all h).ne'
  rw [reweighedList, cellW_scale (cellFactor d) p l, cellFactor]
  field_simp
  ring

theorem groupW_reweighed {d : List Instance} (h : allCellsPos d) (p : Bool) :
    groupW p (reweighedList d) = groupW p d := by
  have hN := (totalW_pos_of_all h).ne'
  rw [groupW_eq_cell, cellW_reweighed h, cellW_reweighed h, div_add_div_same,
    ← mul_add, ← totalW_eq_label d, mul_div_assoc, div_self hN, mul_one]

theorem labelW_reweighed {d : List Instance} (h : allCellsPos d) (l : Bool) :
    labelW l (reweighedList d) = labelW l d := by
  have hN := (totalW_pos_of_all h).ne'
  rw [labelW_eq_cell, cellW_reweighed h, cellW_reweighed h, div_add_div_same,
    ← add_mul, ← totalW_eq_group d, mul_comm, mul_div_assoc, div_self hN, mul_one]

theorem totalW_reweighed {d : List Instance} (h : allCellsPos d) :
    totalW (reweighedList d) = totalW d := by
  rw [totalW_eq_group, groupW_reweighed h, groupW_reweighed h, ← totalW_eq_group]

theorem favProb_reweighed {d : List Instance} (h : allCellsPos d) (p : Bool) :
    favProb p (reweighedList d) = labelW true d / totalW d := by
  have hG := (groupW_pos_of_all h p).ne'
  rw [favProb, cellW_reweighed h, groupW_reweighed h, mul_div_assoc,
    mul_div_cancel_left₀ _ hG]

theorem hasGroup_reweighed (p : Bool) (d : List Instance) :
    hasGroup p (reweighedList d) = hasGroup p d :=
  hasGroup_scale (fun i => i.weight * cellFactor d i.protectedAttr i.label) p d

theorem mean_difference_reweighed {d : List Instance} (h : allCellsPos d) :
    mean_difference (reweighedList d) = Except.ok 0 := by
  have hU : hasGroup false d = true :=
    hasGroup_of_cellW_ne (cellW_pos_of_all h false true).ne'
  have hP : hasGroup true d = true :=
    hasGroup_of_cellW_ne (cellW_pos_of_all h true true).ne'
  rw [mean_difference, mean_difference_with]
  simp only [Bool.not_true]
  rw [hasGroup_reweighed, hasGroup_reweighed, if_pos ⟨hU, hP⟩,
    favProb_reweighed h, favProb_reweighed h, sub_self]

theorem favProb_nonneg {d : List Instance} (hw : ∀ i ∈ d, 0 ≤ i.weight) (p : Bool) :
    0 ≤ favProb p d := by
  rw [favProb]
  have h1 := cellW_nonneg hw p true
  have h2 : 0 ≤ groupW p d := by
    rw [groupW_eq_cell]
    exact add_nonneg h1 (cellW_nonneg hw p false)
  exact div_nonneg h1 h2

theorem favProb_le_one {d : List Instance} (hw : ∀ i ∈ d, 0 ≤ i.weight) (p : Bool) :
    favProb p d ≤ 1 := by
  rw [favProb]
  have h1 := cellW_nonneg hw p true
  have h2 : 0 ≤ groupW p d := by
    rw [groupW_eq_cell]
    exact add_nonneg h1 (cellW_nonneg hw p false)
  rcases eq_or_lt_of_le h2 with hg | hg
  · rw [← hg, div_zero]
    norm_num
  · rw [div_le_one hg, groupW_eq_cell]
    have := cellW_nonneg hw p false
    linarith

theorem forall2_scale (g : Instance → ℚ) (d : List Instance) :
    List.Forall₂
      (fun a b => b.protectedAttr = a.protectedAttr ∧ b.label = a.label ∧
        b.features = a.features)
      d (d.map (fun i => { i with weight := g i })) := by
  induction d with
  | nil => simp
  | cons i t ih =>
    simp only [List.map_cons]
    exact List.Forall₂.cons ⟨rfl, rfl, rfl⟩ ih

/-- Two instances used in degenerate-group scenarios: a dataset whose
unprivileged group (and hence two of the four cells) is empty. -/
def privOnly : List Instance := [mkRow true true, mkRow true false]

/-! ### The claims -/

/-- C1: for every dataset partition with positive weights in which all four
(protected, label) cells are non-empty, Reweighing succeeds and
`mean_difference` on the reweighed result is exactly 0; concretely, on the
20-instance scenario (10 privileged with 6 favorable, 10 unprivileged with 3
favorable) the original `mean_difference` is 3/10 − 6/10 = −(3/10) and the
reweighed one is 0. -/
theorem reweighing_then_metric_zero :
    (∀ d : List Instance, (∀ i ∈ d, 0 < i.weight) →
      hasCell true true d = true → hasCell true false d = true →
      hasCell false true d = true → hasCell false false d = true →
      reweigh d = Except.ok (reweighedList d) ∧
        mean_difference (reweighedList d) = Except.ok 0) ∧
    mean_difference tutorialTrain = Except.ok (3/10 - 6/10) ∧
    (3/10 - 6/10 : ℚ) = -(3/10) ∧
    mean_difference (reweighedList tutorialTrain) = Except.ok 0 := by
  refine ⟨?_, ?_, by norm_num, ?_⟩
  · intro d hw h11 h10 h01 h00
    have hall := allCellsPos_of_hasCell hw h11 h10 h01 h00
    have hne : ¬(cellW true true d = 0 ∨ cellW true false d = 0 ∨
        cellW false true d = 0 ∨ cellW false false d = 0) := by
      push_neg
      exact ⟨(cellW_pos_of_all hall _ _).ne', (cellW_pos_of_all hall _ _).ne',
        (cellW_pos_of_all hall _ _).ne', (cellW_pos_of_all hall _ _).ne'⟩
    exact ⟨by rw [reweigh, if_neg hne], mean_difference_reweighed hall⟩
  · norm_num [mean_difference, mean_difference_with, hasGroup, favProb, cellW, groupW,
      tutorialTrain, mkRow, List.replicate, List.any]
  · norm_num [mean_difference, mean_difference_with, hasGroup, favProb, cellW, groupW,
      reweighedList, cellFactor, labelW, totalW, tutorialTrain, mkRow, List.replicate,
      List.any, List.map]

/-- Witness for C1: the general half applied to the concrete 20-instance
scenario. -/
theorem reweighing_then_metric_zero_witness :
    reweigh tutorialTrain = Except.ok (reweighedList tutorialTrain) ∧
      mean_difference (reweighedList tutorialTrain) = Except.ok 0 :=
  reweighing_then_metric_zero.1 tutorialTrain (by decide) (by decide) (by decide)
    (by decide) (by decide)

/-- C2: on a dataset with non-negative weights whose two groups are both
non-empty, `mean_difference` returns the difference of the weighted favorable
probabilities (unprivileged minus privileged, each the weighted favorable
count of the group divided by the weighted count of the group), and that value
lies in [-1, 1]. -/
theorem mean_difference_formula_and_bounds (d : List Instance)
    (hw : ∀ i ∈ d, 0 ≤ i.weight)
    (hU : hasGroup false d = true) (hP : hasGroup true d = true) :
    mean_difference d = Except.ok
        (cellW false true d / groupW false d - cellW true true d / groupW true d) ∧
    -1 ≤ cellW false true d / groupW false d - cellW true true d / groupW true d ∧
    cellW false true d / groupW false d - cellW true true d / groupW true d ≤ 1 := by
  have h0 := favProb_nonneg hw
  have h1 := favProb_le_one hw
  simp only [favProb] at h0 h1
  refine ⟨?_, ?_, ?_⟩
  · rw [mean_difference, mean_difference_with]
    simp only [Bool.not_true]
    rw [if_pos ⟨hU, hP⟩]
    rfl
  · linarith [h0 false, h1 true]
  · linarith [h1 false, h0 true]

/-- Witness for C2: the formula and bounds at the concrete 20-instance
scenario. -/
theorem mean_difference_formula_and_bounds_witness :
    mean_difference tutorialTrain = Except.ok
        (cellW false true tutorialTrain / groupW false tutorialTrain -
          cellW true true tutorialTrain / groupW true tutorialTrain) ∧
    -1 ≤ cellW false true tutorialTrain / groupW false tutorialTrain -
        cellW true true tutorialTrain / groupW true tutorialTrain ∧
    cellW false true tutorialTrain / groupW false tutorialTrain -
        cellW true true tutorialTrain / groupW true tutorialTrain ≤ 1 :=
  mean_difference_formula_and_bounds tutorialTrain (by decide) (by decide) (by decide)

/-- C4: `mean_difference` signals `DegenerateGroupError` exactly when the
unprivileged or the privileged group of its input is empty; being a pure
function of its input, it has no side effects. -/
theorem mean_difference_degenerate_iff (d : List Instance) :
    mean_difference d = Except.error FairnessError.DegenerateGroupError ↔
      (hasGroup false d = false ∨ hasGroup true d = false) := by
  rw [mean_difference, mean_difference_with]
  simp only [Bool.not_true]
  split
  · rename_i hc
    simp [hc.1, hc.2]
  · rename_i hc
    constructor
    · intro _
      rcases not_and_or.mp hc with h | h
      · exact Or.inl (by simpa using h)
      · exact Or.inr (by simpa using h)
    · intro _
      rfl

/-- Witness for C4: on a dataset whose unprivileged group is empty,
`mean_difference` signals `DegenerateGroupError`. -/
theorem mean_difference_degenerate_iff_witness :
    mean_difference privOnly = Except.error FairnessError.DegenerateGroupError :=
  (mean_difference_degenerate_iff privOnly).mpr (Or.inl (by decide))

/-- C5: Reweighing fails with `DegenerateGroupError` exactly when one of the
four (protected, label) cells has zero weighted count, and
`DegenerateGroupError` is the only error it ever reports; the `Except` result
is returned synchronously to the caller and no error is swallowed. -/
theorem reweigh_degenerate_iff (d : List Instance) :
    (reweigh d = Except.error FairnessError.DegenerateGroupError ↔
      (cellW true true d = 0 ∨ cellW true false d = 0 ∨
       cellW false true d = 0 ∨ cellW false false d = 0)) ∧
    (∀ e, reweigh d = Except.error e → e = FairnessError.DegenerateGroupError) := by
  rw [reweigh]
  split
  · rename_i hc
    exact ⟨⟨fun _ => hc, fun _ => rfl⟩, fun e he => by simpa using he.symm⟩
  · rename_i hc
    exact ⟨⟨fun h => absurd h (by simp), fun h => absurd h hc⟩,
      fun e he => absurd he (by simp)⟩

/-- Witness for C5: on a dataset whose (unprivileged, favorable) cell is
empty, Reweighing fails with `DegenerateGroupError`. -/
theorem reweigh_degenerate_iff_witness :
    reweigh privOnly = Except.error FairnessError.DegenerateGroupError :=
  (reweigh_degenerate_iff privOnly).1.mpr
    (Or.inr (Or.inr (Or.inl (by simp [cellW, privOnly, mkRow]))))

/-- C8: swapping the privileged and the unprivileged group designations
negates `mean_difference`: the result under the swapped designation is the
negation of the result under the original one (and a degenerate input is
degenerate under both designations). -/
theorem mean_difference_swap_neg (d : List Instance) :
    mean_difference_with false d = (mean_difference_with true d).map (fun x => -x) := by
  rw [mean_difference_with, mean_difference_with]
  simp only [Bool.not_true, Bool.not_false]
  by_cases h1 : hasGroup true d = true <;> by_cases h2 : hasGroup false d = true <;>
    simp [h1, h2, Except.map, neg_sub]

/-- Witness for C8: the antisymmetry at the concrete 20-instance scenario. -/
theorem mean_difference_swap_neg_witness :
    mean_difference_with false tutorialTrain =
      (mean_difference_with true tutorialTrain).map (fun x => -x) :=
  mean_difference_swap_neg tutorialTrain

theorem map_scale_eq_self (g : Bool → Bool → ℚ) (hg : ∀ p l, g p l = 1)
    (d : List Instance) :
    d.map (fun i => { i with weight := i.weight * g i.protectedAttr i.label }) = d := by
  induction d with
  | nil => rfl
  | cons i t ih =>
    simp only [List.map_cons, ih]
    simp only [hg, mul_one]

theorem tutorial_reweigh_ok :
    reweigh tutorialTrain = Except.ok (reweighedList tutorialTrain) := by
  norm_num [reweigh, cellW, tutorialTrain, mkRow, List.replicate]

/-- C6: when every input weight is positive and Reweighing succeeds (all four
cells non-empty), every weight of the output is strictly positive; over the
exact rationals of this model every value is finite, so no negative or
non-finite weight — the `InvalidWeightError` condition — can arise. -/
theorem reweigh_weights_positive (d d' : List Instance)
    (hw : ∀ i ∈ d, 0 < i.weight) (h : reweigh d = Except.ok d') :
    ∀ j ∈ d', 0 < j.weight := by
  obtain ⟨hd', h11, h10, h01, h00⟩ := reweigh_ok h
  have hall := allCellsPos_of_ne (fun i hi => (hw i hi).le) h11 h10 h01 h00
  subst hd'
  intro j hj
  rw [reweighedList] at hj
  obtain ⟨i, hi, rfl⟩ := List.mem_map.mp hj
  exact mul_pos (hw i hi) (cellFactor_pos hall _ _)

/-- Witness for C6: positivity of the first output weight of the concrete
20-instance scenario. -/
theorem reweigh_weights_positive_witness :
    0 < (Instance.mk true true (1 * cellFactor tutorialTrain true true) []).weight :=
  reweigh_weights_positive tutorialTrain (reweighedList tutorialTrain) (by decide)
    tutorial_reweigh_ok _ (by simp [reweighedList, tutorialTrain, mkRow, List.replicate])

/-- C7: Reweighing is idempotent under refitting: when the input weights are
positive and Reweighing succeeds, applying it again to its own output succeeds
and returns that output unchanged. -/
theorem reweigh_idempotent (d d' : List Instance)
    (hw : ∀ i ∈ d, 0 < i.weight) (h : reweigh d = Except.ok d') :
    reweigh d' = Except.ok d' := by
  obtain ⟨hd', h11, h10, h01, h00⟩ := reweigh_ok h
  have hall := allCellsPos_of_ne (fun i hi => (hw i hi).le) h11 h10 h01 h00
  subst hd'
  have hcell : ∀ p l, 0 < cellW p l (reweighedList d) := by
    intro p l
    rw [cellW_reweighed hall]
    exact div_pos
      (mul_pos (groupW_pos_of_all hall p) (labelW_pos_of_all hall l))
      (totalW_pos_of_all hall)
  have hfac : ∀ p l, cellFactor (reweighedList d) p l = 1 := by
    intro p l
    have hG := (groupW_pos_of_all hall p).ne'
    have hL := (labelW_pos_of_all hall l).ne'
    have hN := (totalW_pos_of_all hall).ne'
    rw [cellFactor, cellW_reweighed hall, groupW_reweighed hall, labelW_reweighed hall,
      totalW_reweighed hall]
    field_simp
  have hne : ¬(cellW true true (reweighedList d) = 0 ∨
      cellW true false (reweighedList d) = 0 ∨
      cellW false true (reweighedList d) = 0 ∨
      cellW false false (reweighedList d) = 0) := by
    push_neg
    exact ⟨(hcell _ _).ne', (hcell _ _).ne', (hcell _ _).ne', (hcell _ _).ne'⟩
  rw [reweigh, if_neg hne, reweighedList, map_scale_eq_self _ hfac]

/-- Witness for C7: idempotence at the concrete 20-instance scenario. -/
theorem reweigh_idempotent_witness :
    reweigh (reweighedList tutorialTrain) = Except.ok (reweighedList tutorialTrain) :=
  reweigh_idempotent tutorialTrain (reweighedList tutorialTrain) (by decide)
    tutorial_reweigh_ok

/-- C9: Reweighing returns a new dataset in which every row keeps its
protected-attribute value, its label and its features — row for row only the
weight may change; the input dataset itself is untouched, and both components
are pure functions of their input in this model. -/
theorem reweigh_preserves_rows (d d' : List Instance) (h : reweigh d = Except.ok d') :
    List.Forall₂
      (fun a b => b.protectedAttr = a.protectedAttr ∧ b.label = a.label ∧
        b.features = a.features)
      d d' := by
  obtain ⟨hd', -, -, -, -⟩ := reweigh_ok h
  subst hd'
  exact forall2_scale _ d

/-- Witness for C9: row preservation at the concrete 20-instance scenario. -/
theorem reweigh_preserves_rows_witness :
    List.Forall₂
      (fun a b => b.protectedAttr = a.protectedAttr ∧ b.label = a.label ∧
        b.features = a.features)
      tutorialTrain (reweighedList tutorialTrain) :=
  reweigh_preserves_rows tutorialTrain (reweighedList tutorialTrain)
    tutorial_reweigh_ok

/-- C10: when the input weights are non-negative and Reweighing succeeds, the
total weighted count of the output equals the total weighted count of the
input. -/
theorem reweigh_preserves_totalW (d d' : List Instance)
    (hw : ∀ i ∈ d, 0 ≤ i.weight) (h : reweigh d = Except.ok d') :
    totalW d' = totalW d := by
  obtain ⟨hd', h11, h10, h01, h00⟩ := reweigh_ok h
  have hall := allCellsPos_of_ne hw h11 h10 h01 h00
  subst hd'
  exact totalW_reweighed hall

/-- Witness for C10: weight-total preservation at the concrete 20-instance
scenario. -/
theorem reweigh_preserves_totalW_witness :
    totalW (reweighedList tutorialTrain) = totalW tutorialTrain :=
  reweigh_preserves_totalW tutorialTrain (reweighedList tutorialTrain) (by decide)
    tutorial_reweigh_ok

/-- A four-cell dataset with one non-unit weight: the (privileged, favorable)
instance carries weight 2, the three remaining cells carry weight 1. -/
def cexD : List Instance :=
  [⟨true, true, 2, []⟩, mkRow true false, mkRow false true, mkRow false false]

/-- C3 counterexample: on a partition whose four cells are all non-empty but
whose weights are not all 1, Reweighing succeeds yet the weight it gives an
instance is not the cell value `w(protected, label)`: the (privileged,
favorable) instance of weight 2 receives weight 2 · w(true, true) = 9/5 while
`w(true, true) = 9/10`. -/
theorem reweighing_assigned_weight_cex :
    (∀ i ∈ cexD, 0 < i.weight) ∧
    reweigh cexD = Except.ok (reweighedList cexD) ∧
    ¬ ∀ j ∈ reweighedList cexD,
        j.weight = cellFactor cexD j.protectedAttr j.label := by
  refine ⟨by decide, ?_, ?_⟩
  · norm_num [reweigh, cellW, cexD, mkRow]
  · intro hall
    have hmem : (⟨true, true, 2 * cellFactor cexD true true, []⟩ : Instance) ∈
        reweighedList cexD := by
      simp [reweighedList, cexD, mkRow]
    have heq := hall _ hmem
    have hfac : cellFactor cexD true true = 9 / 10 := by
      norm_num [cellFactor, groupW, labelW, cellW, totalW, cexD, mkRow]
    rw [hfac] at heq
    norm_num at heq

/-- C3 (amended): Reweighing scales each instance's prior weight by the cell
factor `w(protected, label) = (N(protected)/N) * (N(label)/N) /
(N(protected,label)/N)` of the input; when all input weights are 1 the
resulting weight is exactly `w(protected, label)`; and in general, under the
new weights, the joint distribution of (protected attribute, label) equals the
product of its marginals. -/
theorem reweighing_scales_and_decouples (d d' : List Instance)
    (hw : ∀ i ∈ d, 0 < i.weight) (h : reweigh d = Except.ok d') :
    ((∀ i ∈ d, i.weight = 1) →
      ∀ j ∈ d', j.weight = cellFactor d j.protectedAttr j.label) ∧
    (∀ p l, cellW p l d' / totalW d' =
      (groupW p d' / totalW d') * (labelW l d' / totalW d')) := by
  obtain ⟨hd', h11, h10, h01, h00⟩ := reweigh_ok h
  have hall := allCellsPos_of_ne (fun i hi => (hw i hi).le) h11 h10 h01 h00
  subst hd'
  constructor
  · intro hone j hj
    rw [reweighedList] at hj
    obtain ⟨i, hi, rfl⟩ := List.mem_map.mp hj
    show i.weight * cellFactor d i.protectedAttr i.label = cellFactor d _ _
    rw [hone i hi, one_mul]
  · intro p l
    rw [cellW_reweighed hall, totalW_reweighed hall, groupW_reweighed hall,
      labelW_reweighed hall, div_div, div_mul_div_comm]

/-- Witness for the amended C3: on the unit-weight 20-instance scenario the
first reweighed instance carries exactly the cell factor of its cell. -/
theorem reweighing_scales_and_decouples_witness :
    (Instance.mk true true (1 * cellFactor tutorialTrain true true) []).weight =
      cellFactor tutorialTrain true true :=
  (reweighing_scales_and_decouples tutorialTrain (reweighedList tutorialTrain)
    (by decide) tutorial_reweigh_ok).1 (by decide) _
    (by simp [reweighedList, tutorialTrain, mkRow, List.replicate])
